import Mathlib

/-!
# ThreadPool (src/src/threadpool.cpp)

A shallow embedding of `rtc::ThreadPool`: the time-ordered task queue, `dequeue`,
the worker loop (`runOne`, `run`), and the lifecycle operations `count`, `spawn`
and `join`, followed by the properties established about them.

Conventions.
* `clock::time_point` is an integer number of clock ticks (`TimePoint`).
* A `std::function<void()>` is an `Option (W → W)`: `none` is the empty callable
  (what `nullptr` converts to), `some f` a callable whose invocation changes the
  world `W` outside the pool.
* A blocking wait is a point where the rest of the system may change what the
  waiting thread observes next; `dequeue` therefore takes the observation of its
  first loop iteration and the list of observations made after each wake-up.
-/

namespace rtc

/-- A point of the monotonic clock, in ticks. -/
abbrev TimePoint := Int

/-- An entry of `mTasks`: the scheduled time and the callable (`mTasks.top().time`,
`mTasks.top().func` in `dequeue`). -/
structure Task (W : Type) where
  time : TimePoint
  func : Option (W → W)

namespace ThreadPool

variable {W : Type}

/-- Modelled from the spec: `mTasks.top()`. The container of `mTasks` and the comparison of its
entries are declared in threadpool.hpp, which is absent; the spec says "the task with the
smallest `scheduled_time` is always the next candidate" and leaves the order among equal times
open. Here the queue is the list of pending tasks in submission order and the next candidate is
the first task of smallest `time`. -/
def top : List (Task W) → Option (Task W)
  | [] => none
  | x :: xs =>
    match top xs with
    | none => some x
    | some y => if x.time ≤ y.time then some x else some y

/-- Modelled from the spec: `mTasks.pop()`, removing the entry that `top` designates and
nothing else (threadpool.hpp, which declares the container, is absent). -/
def pop : List (Task W) → List (Task W)
  | [] => []
  | x :: xs =>
    match top xs with
    | none => xs
    | some y => if x.time ≤ y.time then xs else x :: pop xs

/-- How one pass through the body of `while (true)` in `dequeue` ends. -/
inductive Iter (W : Type) where
  /-- Lines 95-97: `func` of the top entry is moved out, the entry popped, `func` returned. -/
  | ret (task : Task W) (rest : List (Task W))
  /-- Lines 101 and 106: `break`, after which line 111 returns `nullptr`. -/
  | brk
  /-- Line 103: `mCondition.wait_until(lock, mTasks.top().time)`. -/
  | waitUntil (deadline : TimePoint)
  /-- Line 108: `mCondition.wait(lock)`. -/
  | wait

/-- The loop body of `dequeue` (lines 93-109) on the queue held under `mMutex`, the value read
from `mJoining` and the value read from `clock::now()`. The test `!mTasks.empty()` is the case
`top tasks = some _`: `top` is `none` on the empty queue only. -/
def dequeueIter (tasks : List (Task W)) (joining : Bool) (now : TimePoint) : Iter W :=
  match top tasks with
  | some t =>
    if t.time ≤ now then .ret t (pop tasks)
    else if joining then .brk
    else .waitUntil t.time
  | none =>
    if joining then .brk
    else .wait

/-- What a thread inside `dequeue` sees in one loop iteration: the queue (stable for the whole
iteration, `mMutex` being held), the value it reads from `mJoining`, and its clock reading. -/
structure Obs (W : Type) where
  tasks : List (Task W)
  joining : Bool
  now : TimePoint

/-- Outcome of a call of `dequeue`. -/
inductive Result (W : Type) where
  /-- Returned at line 97 with the callable of `task`; `rest` is the queue left behind. -/
  | popped (task : Task W) (rest : List (Task W))
  /-- Returned `nullptr` at line 111; the queue is as last observed. -/
  | null (tasks : List (Task W))
  /-- Still suspended in `wait` or `wait_until`: no further wake-up was delivered. -/
  | blocked

/-- The callable that the caller of `dequeue` receives. An empty callable taken from the queue
and the `nullptr` of line 111 are the same value. -/
def Result.value : Result W → Option (Option (W → W))
  | .popped task _ => some task.func
  | .null _ => some none
  | .blocked => none

/-- `ThreadPool::dequeue` (lines 90-112). `o` is what the first iteration observes; every
element of the list is what the iteration following one wake-up (notification, deadline or
spurious) observes. A wait with no wake-up left to receive stays blocked. -/
def dequeue : Obs W → List (Obs W) → Result W
  | o, [] =>
    match dequeueIter o.tasks o.joining o.now with
    | .ret task rest => .popped task rest
    | .brk => .null o.tasks
    | .waitUntil _ => .blocked
    | .wait => .blocked
  | o, o1 :: more =>
    match dequeueIter o.tasks o.joining o.now with
    | .ret task rest => .popped task rest
    | .brk => .null o.tasks
    | .waitUntil _ => dequeue o1 more
    | .wait => dequeue o1 more

/-- The observation of the loop iteration in which `dequeue` leaves its loop (by `return` at
line 97 or by `break`), if it does: the queue, flag value and clock reading of that iteration. -/
def lastObs : Obs W → List (Obs W) → Option (Obs W)
  | o, [] =>
    match dequeueIter o.tasks o.joining o.now with
    | .ret _ _ => some o
    | .brk => some o
    | .waitUntil _ => none
    | .wait => none
  | o, o1 :: more =>
    match dequeueIter o.tasks o.joining o.now with
    | .ret _ _ => some o
    | .brk => some o
    | .waitUntil _ => lastObs o1 more
    | .wait => lastObs o1 more

/-- The effect on the world of calling the callable of a task (`task()` at line 84). -/
def callTask (x : Task W) (w : W) : W :=
  match x.func with
  | some f => f w
  | none => w

/-- The part of the program state that one worker thread reads and writes while it runs:
the queue, the world its tasks act on, and the record of the tasks it has invoked. -/
structure Worker (W : Type) where
  tasks : List (Task W)
  world : W
  invoked : List (Task W)

/-- `ThreadPool::runOne` (lines 82-88): `if (auto task = dequeue()) { task(); return true; }
return false;`. The test is the conversion of the callable to `bool`, false for an empty one.
`none` means that the call is still blocked inside `dequeue`. -/
def runOne (joining : Bool) (now : TimePoint) (wakeups : List (Obs W)) (s : Worker W) :
    Option (Bool × Worker W) :=
  match dequeue ⟨s.tasks, joining, now⟩ wakeups with
  | .blocked => none
  | .null tasks => some (false, { s with tasks := tasks })
  | .popped task rest =>
    match task.func with
    | some f => some (true, ⟨rest, f s.world, s.invoked ++ [task]⟩)
    | none => some (false, { s with tasks := rest })

/-- `ThreadPool::run` (lines 74-80), `while (runOne()) {}`, for a worker that is alone with the
queue: `mJoining` and the clock keep the given values and nobody delivers a wake-up. The first
argument bounds the number of `runOne` calls; `none` means the loop has not ended within the
bound or is blocked in `dequeue`. -/
def run (joining : Bool) (now : TimePoint) : Nat → Worker W → Option (Worker W)
  | 0, _ => none
  | n + 1, s =>
    match runOne joining now [] s with
    | none => none
    | some (true, s1) => run joining now n s1
    | some (false, s1) => some s1

/-! ## Lifecycle: `count`, `spawn`, `join` -/

/-- An element of `mWorkers`: a thread created at line 55, bound to `ThreadPool::run`. -/
inductive Thread where
  | runLoop
  deriving DecidableEq, Repr

/-- The shared state of the pool: `mWorkers`, `mJoining` and `mTasks`. -/
structure Pool (W : Type) where
  workers : List Thread
  joining : Bool
  tasks : List (Task W)

/-- The pool before any call: no worker, `mJoining = false` (line 31), no task. -/
def Pool.initial : Pool W := ⟨[], false, []⟩

/-- `ThreadPool::count` (lines 46-49): `int(mWorkers.size())`. The number of threads is taken
to fit an `int`, so that the conversion is exact. -/
def count (p : Pool W) : Int := (p.workers.length : Int)

/-- The failure that the description of `spawn` names. No statement of `spawn` raises it. -/
inductive Failure where
  | invalidArgument
  deriving DecidableEq, Repr

/-- Lines 54-55: `while (count-- > 0) mWorkers.emplace_back(...)`. The test compares the value
before the decrement; the value left in `count` after the last test is never used. -/
def spawnLoop (count : Int) (workers : List Thread) : List Thread :=
  if 0 < count then spawnLoop (count - 1) (workers ++ [Thread.runLoop]) else workers
termination_by count.toNat
decreasing_by omega

/-- `ThreadPool::spawn` (lines 51-56): `mJoining = false`, then the loop. The body has no
`throw`; the call always returns normally. -/
def spawn (count : Int) (p : Pool W) : Except Failure (Pool W) :=
  .ok { p with joining := false, workers := spawnLoop count p.workers }

/-- `ThreadPool::join` (lines 58-69), the state when the call has returned. With `mJoining` set
it returns at line 60. Otherwise it sets `mJoining`, notifies, waits for every worker thread to
end and clears `mWorkers`; `left` is the queue as those threads leave it (the function itself
never touches `mTasks`). -/
def join (left : List (Task W)) (p : Pool W) : Pool W :=
  if p.joining then p
  else { joining := true, workers := [], tasks := left }

/-- A call made on the pool by its owner. -/
inductive Op (W : Type) where
  | spawn (count : Int)
  | join (left : List (Task W))

/-- The pool after one call. -/
def Op.apply (p : Pool W) : Op W → Pool W
  | .spawn n =>
    match ThreadPool.spawn n p with
    | .ok q => q
    | .error _ => p
  | .join left => ThreadPool.join left p

/-- The pool after a sequence of calls, made one after the other. -/
def applyOps (ops : List (Op W)) (p : Pool W) : Pool W :=
  ops.foldl Op.apply p

/-! ## One worker inside `dequeue` and one concurrent caller of `join`

Each thread advances by one statement at a time; the statements of the two threads interleave
in any order. `join` locks `mWorkersMutex` only, so `mMutex` is never contended here and the
worker can always take it. -/

/-- Where the worker thread stands in `run` / `runOne` / `dequeue`. -/
inductive WorkerAt (W : Type) where
  /-- Line 91, about to lock `mMutex`. -/
  | lock
  /-- Lines 93-94, holding `mMutex`. -/
  | test
  /-- Line 100, about to read `mJoining`; the top entry is due at `deadline`. -/
  | readNonEmpty (deadline : TimePoint)
  /-- Line 105, about to read `mJoining`. -/
  | readEmpty
  /-- Line 103, `mJoining` was read as false, about to call `wait_until`. -/
  | callWaitUntil (deadline : TimePoint)
  /-- Line 108, `mJoining` was read as false, about to call `wait`. -/
  | callWait
  /-- Inside `wait_until`, `mMutex` released. -/
  | waitingUntil (deadline : TimePoint)
  /-- Inside `wait`, `mMutex` released. -/
  | waiting
  /-- Woken, locking `mMutex` again before the wait call returns. -/
  | relock
  /-- Line 83-84, `dequeue` has returned the callable of `task`. -/
  | got (task : Task W)
  /-- `runOne` returned false, `run` has ended: the thread is finished. -/
  | finished

/-- Where the caller of `join` stands. -/
inductive JoinAt where
  /-- Line 59. -/
  | test
  /-- Line 61. -/
  | lock
  /-- Line 62. -/
  | store
  /-- Line 63. -/
  | notify
  /-- Lines 65-66, `w.join()` on the worker. -/
  | joinThread
  /-- Line 68. -/
  | clear
  /-- The call has returned. -/
  | returned
  deriving DecidableEq, Repr

/-- The state of the two-thread system. -/
structure Sys (W : Type) where
  tasks : List (Task W)
  joining : Bool
  now : TimePoint
  world : W
  workers : List Thread
  worker : WorkerAt W
  joiner : JoinAt

/-- One statement of the worker; `none` when the thread cannot advance. -/
def stepWorker (s : Sys W) : Option (Sys W) :=
  match s.worker with
  | .lock => some { s with worker := .test }
  | .test =>
    match top s.tasks with
    | some t =>
      if t.time ≤ s.now then some { s with tasks := pop s.tasks, worker := .got t }
      else some { s with worker := .readNonEmpty t.time }
    | none => some { s with worker := .readEmpty }
  | .readNonEmpty d =>
    if s.joining then some { s with worker := .finished }
    else some { s with worker := .callWaitUntil d }
  | .readEmpty =>
    if s.joining then some { s with worker := .finished }
    else some { s with worker := .callWait }
  | .callWaitUntil d => some { s with worker := .waitingUntil d }
  | .callWait => some { s with worker := .waiting }
  | .waitingUntil d => if d ≤ s.now then some { s with worker := .relock } else none
  | .waiting => none
  | .relock => some { s with worker := .test }
  | .got task =>
    match task.func with
    | some f => some { s with world := f s.world, worker := .lock }
    | none => some { s with worker := .finished }
  | .finished => none

/-- The effect of `notify_all` on the worker: a thread inside a wait is woken, any other thread
is not affected. -/
def wake : WorkerAt W → WorkerAt W
  | .waiting => .relock
  | .waitingUntil _ => .relock
  | w => w

/-- One statement of the caller of `join`; `none` when the thread cannot advance. -/
def stepJoiner (s : Sys W) : Option (Sys W) :=
  match s.joiner with
  | .test => if s.joining then some { s with joiner := .returned } else some { s with joiner := .lock }
  | .lock => some { s with joiner := .store }
  | .store => some { s with joining := true, joiner := .notify }
  | .notify => some { s with worker := wake s.worker, joiner := .joinThread }
  | .joinThread =>
    match s.worker with
    | .finished => some { s with joiner := .clear }
    | _ => none
  | .clear => some { s with workers := [], joiner := .returned }
  | .returned => none

/-- What the scheduler lets happen next. -/
inductive Ev where
  | worker
  | joiner
  | tick
  deriving DecidableEq, Repr

/-- One event. A tick advances the clock by one. -/
def step (s : Sys W) : Ev → Option (Sys W)
  | .worker => stepWorker s
  | .joiner => stepJoiner s
  | .tick => some { s with now := s.now + 1 }

/-- A schedule, event after event; `none` if it asks a thread to advance that cannot. -/
def exec (s : Sys W) : List Ev → Option (Sys W)
  | [] => some s
  | e :: es =>
    match step s e with
    | some s1 => exec s1 es
    | none => none

/-- A worker entering `dequeue` on an empty queue while another thread enters `join`. -/
def Sys.start : Sys Unit :=
  ⟨[], false, 0, (), [Thread.runLoop], .lock, .test⟩

/-! ## The queue -/

theorem top_eq_none_iff (l : List (Task W)) : top l = none ↔ l = [] := by
  cases l with
  | nil => simp [top]
  | cons x xs =>
    simp only [top]
    cases top xs with
    | none => simp
    | some y => by_cases h : x.time ≤ y.time <;> simp [h]

/-- The entry designated by `top` is a member of the queue of smallest time, and `pop` removes
that one occurrence and keeps everything else in place. -/
theorem top_pop_split : ∀ (l : List (Task W)) (x : Task W), top l = some x →
    ∃ l₁ l₂, l = l₁ ++ x :: l₂ ∧ pop l = l₁ ++ l₂ ∧ ∀ y ∈ l, x.time ≤ y.time
  | [], x, h => by simp [top] at h
  | a :: xs, x, h => by
    simp only [top] at h
    cases hxs : top xs with
    | none =>
      rw [hxs] at h
      have hnil : xs = [] := (top_eq_none_iff xs).1 hxs
      subst hnil
      simp only [Option.some.injEq] at h
      subst h
      exact ⟨[], [], by simp, by simp [pop, top], by simp⟩
    | some y =>
      rw [hxs] at h
      obtain ⟨l₁, l₂, hl, hp, hmin⟩ := top_pop_split xs y hxs
      by_cases hle : a.time ≤ y.time
      · simp only [hle, if_true, Option.some.injEq] at h
        subst h
        refine ⟨[], xs, by simp, by simp [pop, hxs, hle], ?_⟩
        intro z hz
        rcases List.mem_cons.1 hz with hz | hz
        · subst hz; exact le_refl _
        · exact le_trans hle (hmin z hz)
      · simp only [hle, if_false, Option.some.injEq] at h
        subst h
        refine ⟨a :: l₁, l₂, by simp [hl], by simp [pop, hxs, hle, hp], ?_⟩
        intro z hz
        rcases List.mem_cons.1 hz with hz | hz
        · subst hz; exact le_of_lt (lt_of_not_ge hle)
        · exact hmin z hz

theorem top_mem (l : List (Task W)) (x : Task W) (h : top l = some x) : x ∈ l := by
  obtain ⟨l₁, l₂, hl, _, _⟩ := top_pop_split l x h
  rw [hl]; simp

theorem top_le (l : List (Task W)) (x : Task W) (h : top l = some x) :
    ∀ y ∈ l, x.time ≤ y.time := by
  obtain ⟨_, _, _, _, hmin⟩ := top_pop_split l x h
  exact hmin

theorem top_isSome_of_ne_nil (l : List (Task W)) (h : l ≠ []) : ∃ x, top l = some x := by
  cases hl : top l with
  | none => exact absurd ((top_eq_none_iff l).1 hl) h
  | some x => exact ⟨x, rfl⟩

/-! ## `dequeue` -/

theorem dequeue_popped_lastObs : ∀ (ws : List (Obs W)) (o : Obs W) (task : Task W)
    (rest : List (Task W)), dequeue o ws = .popped task rest →
    ∃ o1, lastObs o ws = some o1 ∧ dequeueIter o1.tasks o1.joining o1.now = .ret task rest
  | [], o, task, rest, h => by
    unfold dequeue at h
    unfold lastObs
    cases hi : dequeueIter o.tasks o.joining o.now with
    | ret t r =>
      rw [hi] at h
      simp only [Result.popped.injEq] at h
      refine ⟨o, rfl, ?_⟩
      rw [hi, h.1, h.2]
    | brk => rw [hi] at h; simp at h
    | waitUntil d => rw [hi] at h; simp at h
    | wait => rw [hi] at h; simp at h
  | o1 :: more, o, task, rest, h => by
    unfold dequeue at h
    unfold lastObs
    cases hi : dequeueIter o.tasks o.joining o.now with
    | ret t r =>
      rw [hi] at h
      simp only [Result.popped.injEq] at h
      refine ⟨o, rfl, ?_⟩
      rw [hi, h.1, h.2]
    | brk => rw [hi] at h; simp at h
    | waitUntil d =>
      rw [hi] at h
      exact dequeue_popped_lastObs more o1 task rest h
    | wait =>
      rw [hi] at h
      exact dequeue_popped_lastObs more o1 task rest h

theorem dequeue_null_lastObs : ∀ (ws : List (Obs W)) (o : Obs W) (tasks : List (Task W)),
    dequeue o ws = .null tasks →
    ∃ o1, lastObs o ws = some o1 ∧ dequeueIter o1.tasks o1.joining o1.now = .brk ∧
      tasks = o1.tasks
  | [], o, tasks, h => by
    unfold dequeue at h
    unfold lastObs
    cases hi : dequeueIter o.tasks o.joining o.now with
    | ret t r => rw [hi] at h; simp at h
    | brk =>
      rw [hi] at h
      simp only [Result.null.injEq] at h
      exact ⟨o, rfl, hi, h.symm⟩
    | waitUntil d => rw [hi] at h; simp at h
    | wait => rw [hi] at h; simp at h
  | o1 :: more, o, tasks, h => by
    unfold dequeue at h
    unfold lastObs
    cases hi : dequeueIter o.tasks o.joining o.now with
    | ret t r => rw [hi] at h; simp at h
    | brk =>
      rw [hi] at h
      simp only [Result.null.injEq] at h
      exact ⟨o, rfl, hi, h.symm⟩
    | waitUntil d =>
      rw [hi] at h
      exact dequeue_null_lastObs more o1 tasks h
    | wait =>
      rw [hi] at h
      exact dequeue_null_lastObs more o1 tasks h

/-- An iteration that returns a task returns the top entry, whose time is not after the clock
reading of that iteration, and leaves the popped queue. -/
theorem dequeueIter_ret (tasks : List (Task W)) (joining : Bool) (now : TimePoint)
    (task : Task W) (rest : List (Task W))
    (h : dequeueIter tasks joining now = .ret task rest) :
    top tasks = some task ∧ rest = pop tasks ∧ task.time ≤ now := by
  unfold dequeueIter at h
  cases ht : top tasks with
  | none => rw [ht] at h; by_cases hj : joining = true <;> simp [hj] at h
  | some t =>
    rw [ht] at h
    by_cases hle : t.time ≤ now
    · simp only [hle, if_true, Iter.ret.injEq] at h
      exact ⟨by rw [h.1], h.2.symm, by rw [← h.1]; exact hle⟩
    · by_cases hj : joining = true <;> simp [hle, hj] at h

/-- An iteration that breaks read `mJoining` as set and found no task due. -/
theorem dequeueIter_brk (tasks : List (Task W)) (joining : Bool) (now : TimePoint)
    (h : dequeueIter tasks joining now = .brk) :
    joining = true ∧ ∀ x ∈ tasks, now < x.time := by
  unfold dequeueIter at h
  cases ht : top tasks with
  | none =>
    rw [ht] at h
    have hnil := (top_eq_none_iff tasks).1 ht
    by_cases hj : joining = true
    · exact ⟨hj, by simp [hnil]⟩
    · simp [hj] at h
  | some t =>
    rw [ht] at h
    by_cases hle : t.time ≤ now
    · simp [hle] at h
    · by_cases hj : joining = true
      · refine ⟨hj, fun x hx => ?_⟩
        exact lt_of_lt_of_le (lt_of_not_ge hle) (top_le tasks t ht x hx)
      · simp [hle, hj] at h

theorem dequeue_due (tasks : List (Task W)) (joining : Bool) (now : TimePoint)
    (ws : List (Obs W)) (x : Task W) (hx : top tasks = some x) (hle : x.time ≤ now) :
    dequeue ⟨tasks, joining, now⟩ ws = .popped x (pop tasks) ∧
      lastObs ⟨tasks, joining, now⟩ ws = some ⟨tasks, joining, now⟩ := by
  have hi : dequeueIter tasks joining now = .ret x (pop tasks) := by
    simp [dequeueIter, hx, hle]
  cases ws <;> simp [dequeue, lastObs, hi]

theorem dequeue_joining_not_due (tasks : List (Task W)) (now : TimePoint)
    (ws : List (Obs W)) (h : ∀ x ∈ tasks, now < x.time) :
    dequeue ⟨tasks, true, now⟩ ws = .null tasks ∧
      lastObs ⟨tasks, true, now⟩ ws = some ⟨tasks, true, now⟩ := by
  have hi : dequeueIter tasks true now = .brk := by
    unfold dequeueIter
    cases ht : top tasks with
    | none => simp
    | some t =>
      have := h t (top_mem tasks t ht)
      simp [not_le.2 this]
  cases ws <;> simp [dequeue, lastObs, hi]

/-- C1: whenever `dequeue` returns the callable of a task, it does so in a loop iteration whose
clock reading is not before the scheduled time of that task, which was the top entry of the
queue in that iteration; `runOne` invokes no other task than that one, so no task is invoked
before its scheduled time. This holds whatever the queue, the joining flag and the clock show
at the call and after each wake-up. -/
theorem C1_dequeue_not_before_scheduled_time (o : Obs W) (ws : List (Obs W)) (task : Task W)
    (rest : List (Task W)) (h : dequeue o ws = .popped task rest) :
    ∃ o1, lastObs o ws = some o1 ∧ top o1.tasks = some task ∧ task.time ≤ o1.now ∧
      ∀ (world : W) (invoked : List (Task W)) (b : Bool) (s1 : Worker W),
        runOne o.joining o.now ws ⟨o.tasks, world, invoked⟩ = some (b, s1) →
          s1.invoked = invoked ∨ s1.invoked = invoked ++ [task] := by
  obtain ⟨o1, hlast, hiter⟩ := dequeue_popped_lastObs ws o task rest h
  obtain ⟨htop, _, hle⟩ := dequeueIter_ret o1.tasks o1.joining o1.now task rest hiter
  refine ⟨o1, hlast, htop, hle, ?_⟩
  intro world invoked b s1 hrun
  have hd : dequeue ⟨o.tasks, o.joining, o.now⟩ ws = .popped task rest := h
  simp only [runOne, hd] at hrun
  cases hf : task.func with
  | none =>
    rw [hf] at hrun
    simp only [Option.some.injEq, Prod.mk.injEq] at hrun
    left; rw [← hrun.2]
  | some f =>
    rw [hf] at hrun
    simp only [Option.some.injEq, Prod.mk.injEq] at hrun
    right; rw [← hrun.2]

/-- C1 at a concrete call: the only task is due at 5, the clock shows 3 at the call, so the
worker waits; woken when the clock shows 7, it receives the task. -/
theorem C1_dequeue_not_before_scheduled_time_witness :
    dequeue (⟨[⟨5, some Nat.succ⟩], false, 3⟩ : Obs Nat) [⟨[⟨5, some Nat.succ⟩], false, 7⟩]
        = .popped ⟨5, some Nat.succ⟩ [] ∧
      ∃ o1, lastObs (⟨[⟨5, some Nat.succ⟩], false, 3⟩ : Obs Nat)
            [⟨[⟨5, some Nat.succ⟩], false, 7⟩] = some o1 ∧
        top o1.tasks = some ⟨5, some Nat.succ⟩ ∧ (5 : Int) ≤ o1.now ∧
        ∀ (world : Nat) (invoked : List (Task Nat)) (b : Bool) (s1 : Worker Nat),
          runOne false 3 [⟨[⟨5, some Nat.succ⟩], false, 7⟩]
              ⟨[⟨5, some Nat.succ⟩], world, invoked⟩ = some (b, s1) →
            s1.invoked = invoked ∨ s1.invoked = invoked ++ [⟨5, some Nat.succ⟩] :=
  ⟨by simp [dequeue, dequeueIter, top, pop],
   C1_dequeue_not_before_scheduled_time (⟨[⟨5, some Nat.succ⟩], false, 3⟩ : Obs Nat)
     [⟨[⟨5, some Nat.succ⟩], false, 7⟩] ⟨5, some Nat.succ⟩ []
     (by simp [dequeue, dequeueIter, top, pop])⟩

/-- C2: on a non-empty queue whose earliest task is due (its time is not after the clock
reading), `dequeue` returns in its first iteration, without any wait and whatever the joining
flag is, the callable of a task of smallest time, and the queue left behind is the old queue
with that one entry taken out, every other entry kept once and in place. -/
theorem C2_dequeue_returns_earliest_due (tasks : List (Task W)) (joining : Bool)
    (now : TimePoint) (ws : List (Obs W)) (hne : tasks ≠ [])
    (hdue : ∃ x ∈ tasks, (∀ y ∈ tasks, x.time ≤ y.time) ∧ x.time ≤ now) :
    ∃ x l₁ l₂, tasks = l₁ ++ x :: l₂ ∧ (∀ y ∈ tasks, x.time ≤ y.time) ∧
      dequeue ⟨tasks, joining, now⟩ ws = .popped x (l₁ ++ l₂) ∧
      (dequeue ⟨tasks, joining, now⟩ ws).value = some x.func ∧
      lastObs ⟨tasks, joining, now⟩ ws = some ⟨tasks, joining, now⟩ := by
  obtain ⟨x, hx⟩ := top_isSome_of_ne_nil tasks hne
  obtain ⟨x0, hx0, _, hx0le⟩ := hdue
  have hle : x.time ≤ now := le_trans (top_le tasks x hx x0 hx0) hx0le
  obtain ⟨l₁, l₂, hl, hp, hmin⟩ := top_pop_split tasks x hx
  obtain ⟨hd, hlast⟩ := dequeue_due tasks joining now ws x hx hle
  refine ⟨x, l₁, l₂, hl, hmin, ?_, ?_, hlast⟩
  · rw [hd, hp]
  · rw [hd]; rfl

/-- C2 at a concrete call: tasks due at 4, 2 and 9 with the clock at 3; the one due at 2 is
returned and the other two stay, in their order. -/
theorem C2_dequeue_returns_earliest_due_witness :
    ∃ x l₁ l₂, ([⟨4, some Nat.succ⟩, ⟨2, none⟩, ⟨9, some Nat.succ⟩] : List (Task Nat))
        = l₁ ++ x :: l₂ ∧
      (∀ y ∈ ([⟨4, some Nat.succ⟩, ⟨2, none⟩, ⟨9, some Nat.succ⟩] : List (Task Nat)),
        x.time ≤ y.time) ∧
      dequeue ⟨[⟨4, some Nat.succ⟩, ⟨2, none⟩, ⟨9, some Nat.succ⟩], false, 3⟩ []
        = .popped x (l₁ ++ l₂) ∧
      (dequeue ⟨[⟨4, some Nat.succ⟩, ⟨2, none⟩, ⟨9, some Nat.succ⟩], false, 3⟩ []).value
        = some x.func ∧
      lastObs ⟨[⟨4, some Nat.succ⟩, ⟨2, none⟩, ⟨9, some Nat.succ⟩], false, 3⟩ []
        = some ⟨[⟨4, some Nat.succ⟩, ⟨2, none⟩, ⟨9, some Nat.succ⟩], false, 3⟩ :=
  C2_dequeue_returns_earliest_due _ false 3 [] (by simp)
    ⟨⟨2, none⟩, by simp, by simp, by decide⟩

/-- C3: with the joining flag set and no task due (the queue is empty, or its earliest task is
scheduled after the clock reading), `dequeue` returns `nullptr` in its first iteration, without
any wait, and leaves the queue as it is; `runOne` then returns false having invoked nothing,
and `run` ends at once with queue and world untouched. -/
theorem C3_dequeue_joining_returns_none (tasks : List (Task W)) (now : TimePoint)
    (ws : List (Obs W))
    (h : tasks = [] ∨ ∃ x ∈ tasks, (∀ y ∈ tasks, x.time ≤ y.time) ∧ now < x.time) :
    dequeue ⟨tasks, true, now⟩ ws = .null tasks ∧
      (dequeue ⟨tasks, true, now⟩ ws).value = some none ∧
      lastObs ⟨tasks, true, now⟩ ws = some ⟨tasks, true, now⟩ ∧
      ∀ (world : W) (invoked : List (Task W)),
        runOne true now ws ⟨tasks, world, invoked⟩ = some (false, ⟨tasks, world, invoked⟩) ∧
        run true now 1 ⟨tasks, world, invoked⟩ = some ⟨tasks, world, invoked⟩ := by
  have hall : ∀ x ∈ tasks, now < x.time := by
    rcases h with h | ⟨x, _, hmin, hlt⟩
    · subst h; simp
    · exact fun y hy => lt_of_lt_of_le hlt (hmin y hy)
  obtain ⟨hd, hlast⟩ := dequeue_joining_not_due tasks now ws hall
  have hd0 := (dequeue_joining_not_due tasks now [] hall).1
  refine ⟨hd, by rw [hd]; rfl, hlast, fun world invoked => ⟨?_, ?_⟩⟩
  · simp [runOne, hd]
  · simp [run, runOne, hd0]

/-- C3 at the scenario of the description: the clock shows 0, the only task is scheduled one
hour (3600 ticks of one second) later, and shutdown has been requested. -/
theorem C3_dequeue_joining_returns_none_witness :
    dequeue (⟨[⟨3600, some Nat.succ⟩], true, 0⟩ : Obs Nat) [] = .null [⟨3600, some Nat.succ⟩] ∧
      (dequeue (⟨[⟨3600, some Nat.succ⟩], true, 0⟩ : Obs Nat) []).value = some none ∧
      lastObs (⟨[⟨3600, some Nat.succ⟩], true, 0⟩ : Obs Nat) []
        = some ⟨[⟨3600, some Nat.succ⟩], true, 0⟩ ∧
      ∀ (world : Nat) (invoked : List (Task Nat)),
        runOne true 0 [] ⟨[⟨3600, some Nat.succ⟩], world, invoked⟩
          = some (false, ⟨[⟨3600, some Nat.succ⟩], world, invoked⟩) ∧
        run true 0 1 ⟨[⟨3600, some Nat.succ⟩], world, invoked⟩
          = some ⟨[⟨3600, some Nat.succ⟩], world, invoked⟩ :=
  C3_dequeue_joining_returns_none [⟨3600, some Nat.succ⟩] 0 []
    (Or.inr ⟨⟨3600, some Nat.succ⟩, by simp, by simp, by decide⟩)

/-! ## `count`, `spawn`, `join` -/

/-- The loop of `spawn` appends one thread per unit of a positive count and nothing otherwise. -/
theorem spawnLoop_eq : ∀ (k : Nat) (n : Int) (ws : List Thread), n.toNat = k →
    spawnLoop n ws = ws ++ List.replicate k Thread.runLoop
  | 0, n, ws, h => by
    have hn : ¬ 0 < n := by omega
    rw [spawnLoop]
    simp [hn]
  | k + 1, n, ws, h => by
    have hpos : 0 < n := by omega
    rw [spawnLoop]
    simp only [hpos, if_true]
    rw [spawnLoop_eq k (n - 1) _ (by omega)]
    simp [List.replicate_succ]

/-- Every call keeps: the joining flag is clear or there is no worker. -/
theorem applyOps_invariant : ∀ (ops : List (Op W)) (p : Pool W),
    (p.joining = false ∨ p.workers = []) →
    ((applyOps ops p).joining = false ∨ (applyOps ops p).workers = [])
  | [], p, h => h
  | op :: ops, p, h => by
    have hstep : (Op.apply p op).joining = false ∨ (Op.apply p op).workers = [] := by
      cases op with
      | spawn n => left; simp [Op.apply, spawn]
      | join l =>
        by_cases hj : p.joining = true
        · have hsame : Op.apply p (Op.join l) = p := by simp [Op.apply, join, hj]
          rw [hsame]; exact h
        · right; simp [Op.apply, join, hj]
    exact applyOps_invariant ops (Op.apply p op) hstep

/-- C4 (as the code behaves): for a negative count `spawn` returns normally, it raises no
invalid-argument condition; it adds no worker, the worker collection and the task queue are
left as they were, and the joining flag is cleared as by any other call of `spawn`. -/
theorem C4_spawn_negative_returns_normally (p : Pool W) (n : Int) (h : n < 0) :
    spawn n p = .ok ⟨p.workers, false, p.tasks⟩ ∧
      count (⟨p.workers, false, p.tasks⟩ : Pool W) = count p := by
  have hk : n.toNat = 0 := by omega
  refine ⟨?_, rfl⟩
  simp [spawn, spawnLoop_eq 0 n p.workers hk]

/-- C4 (as the code behaves) at `spawn(-3)` on a running pool of two workers. -/
theorem C4_spawn_negative_returns_normally_witness :
    spawn (-3) (⟨[Thread.runLoop, Thread.runLoop], false, []⟩ : Pool Unit)
        = .ok ⟨[Thread.runLoop, Thread.runLoop], false, []⟩ ∧
      count (⟨[Thread.runLoop, Thread.runLoop], false, []⟩ : Pool Unit)
        = count (⟨[Thread.runLoop, Thread.runLoop], false, []⟩ : Pool Unit) :=
  C4_spawn_negative_returns_normally ⟨[Thread.runLoop, Thread.runLoop], false, []⟩ (-3)
    (by decide)

/-- C4 as stated fails: on a pool that `join` has shut down, `spawn(-1)` returns normally, not
with an error, and it changes the pool state by clearing the joining flag. -/
theorem C4_spawn_negative_counterexample :
    spawn (-1) (⟨[], true, []⟩ : Pool Unit) = .ok ⟨[], false, []⟩ ∧
      (¬ ∃ e, spawn (-1) (⟨[], true, []⟩ : Pool Unit) = .error e) ∧
      spawn (-1) (⟨[], true, []⟩ : Pool Unit) ≠ .ok ⟨[], true, []⟩ := by
  have hs : spawn (-1) (⟨[], true, []⟩ : Pool Unit) = .ok ⟨[], false, []⟩ := by
    simp [spawn, spawnLoop_eq 0 (-1) [] (by decide)]
  refine ⟨hs, ?_, ?_⟩
  · rintro ⟨e, he⟩
    rw [hs] at he
    cases he
  · rw [hs]
    intro hc
    injection hc with hc
    injection hc with _ hj _
    cases hj

/-- C5: for a count `n ≥ 0`, `spawn(n)` returns normally, `count()` afterwards is `count()`
before plus `n`, and the joining flag is false; in particular after `spawn(1)`, `join()`,
`spawn(1)` on a fresh pool the flag is false again and `count()` is 1. -/
theorem C5_spawn_adds_workers_and_clears_joining (p : Pool W) (n : Int) (h : 0 ≤ n)
    (left : List (Task W)) :
    (∃ q, spawn n p = .ok q ∧ count q = count p + n ∧ q.joining = false ∧ q.tasks = p.tasks) ∧
      count (applyOps [.spawn 1, .join left, .spawn 1] (Pool.initial : Pool W)) = 1 ∧
      (applyOps [.spawn 1, .join left, .spawn 1] (Pool.initial : Pool W)).joining = false := by
  refine ⟨⟨_, rfl, ?_, rfl, rfl⟩, ?_, ?_⟩
  · simp only [count, spawnLoop_eq n.toNat n p.workers rfl, List.length_append,
      List.length_replicate]
    omega
  · simp [applyOps, Op.apply, spawn, join, Pool.initial, count,
      spawnLoop_eq 1 1 _ (by decide)]
  · simp [applyOps, Op.apply, spawn, join, Pool.initial]

/-- C5 at `spawn(2)` on a pool of one worker that has been asked to stop. -/
theorem C5_spawn_adds_workers_and_clears_joining_witness :
    (∃ q, spawn 2 (⟨[Thread.runLoop], true, []⟩ : Pool Unit) = .ok q ∧
        count q = count (⟨[Thread.runLoop], true, []⟩ : Pool Unit) + 2 ∧
        q.joining = false ∧ q.tasks = []) ∧
      count (applyOps [.spawn 1, .join [], .spawn 1] (Pool.initial : Pool Unit)) = 1 ∧
      (applyOps [.spawn 1, .join [], .spawn 1] (Pool.initial : Pool Unit)).joining = false :=
  C5_spawn_adds_workers_and_clears_joining ⟨[Thread.runLoop], true, []⟩ 2 (by decide) []

/-- C6: in every pool state reached from an initial one (no worker, joining flag false, any
queue) by a sequence of `spawn` and `join` calls, the joining flag is clear or the worker
collection is empty, and `count()` right after one more `join()` is 0, whether that call
returns early at line 60 or runs to the end. -/
theorem C6_count_zero_after_join (ops : List (Op W)) (queue left : List (Task W)) :
    count (join left (applyOps ops ⟨[], false, queue⟩)) = 0 ∧
      ((applyOps ops ⟨[], false, queue⟩).joining = false ∨
        (applyOps ops ⟨[], false, queue⟩).workers = []) := by
  have hinv := applyOps_invariant ops (⟨[], false, queue⟩ : Pool W) (Or.inl rfl)
  refine ⟨?_, hinv⟩
  by_cases hj : (applyOps ops (⟨[], false, queue⟩ : Pool W)).joining = true
  · rcases hinv with hf | hw
    · rw [hj] at hf; cases hf
    · simp [join, hj, count, hw]
  · simp [join, hj, count]

/-- C7: `join` called twice in a row leaves the state that one call leaves, and `join` on a pool
whose joining flag is set returns it unchanged: flag, worker collection and queue. -/
theorem C7_join_idempotent (p : Pool W) (l1 l2 : List (Task W)) (ws : List Thread)
    (ts : List (Task W)) :
    join l2 (join l1 p) = join l1 p ∧
      join l1 (⟨ws, true, ts⟩ : Pool W) = ⟨ws, true, ts⟩ := by
  constructor
  · by_cases hj : p.joining = true
    · simp [join, hj]
    · simp [join, hj]
  · simp [join]

/-! ## Lost wake-up between the worker and `join` -/

/-- A worker inside `wait` while the caller of `join` is at `w.join()`: neither thread can
advance, and the passing of time changes nothing about it. -/
theorem stuck_forever : ∀ (sched : List Ev) (s s1 : Sys W),
    s.worker = .waiting → s.joiner = .joinThread → exec s sched = some s1 →
    s1.worker = .waiting ∧ s1.joiner = .joinThread ∧ s1.joining = s.joining
  | [], s, s1, hw, hj, h => by
    simp only [exec, Option.some.injEq] at h
    subst h
    exact ⟨hw, hj, rfl⟩
  | e :: es, s, s1, hw, hj, h => by
    cases e with
    | worker => simp [exec, step, stepWorker, hw] at h
    | joiner => simp [exec, step, stepJoiner, hj, hw] at h
    | tick =>
      simp only [exec, step] at h
      have := stuck_forever es { s with now := s.now + 1 } s1 hw hj h
      exact this

/-- C8 fails on the code: the worker reads `mJoining` as false at line 105, then `join` stores
true and calls `notify_all` while the worker is not yet waiting, then the worker enters `wait`
at line 108. From there on, in every continuation, the worker stays inside `wait` although the
joining flag is set and the notification has been issued, and `join` stays at `w.join()`. -/
theorem C8_lost_wakeup :
    ∃ s, exec Sys.start [.worker, .worker, .worker, .joiner, .joiner, .joiner, .joiner, .worker]
        = some s ∧
      s.tasks = [] ∧ s.joining = true ∧ s.worker = .waiting ∧ s.joiner = .joinThread ∧
      stepWorker s = none ∧ stepJoiner s = none ∧
      ∀ (sched : List Ev) (s1 : Sys Unit), exec s sched = some s1 →
        s1.worker = .waiting ∧ s1.joiner = .joinThread ∧ s1.joining = true := by
  refine ⟨⟨[], true, 0, (), [Thread.runLoop], .waiting, .joinThread⟩, ?_, rfl, rfl, rfl, rfl,
    rfl, rfl, ?_⟩
  · simp [exec, step, stepWorker, stepJoiner, Sys.start, top, wake]
  · intro sched s1 h
    exact stuck_forever sched _ s1 rfl rfl h

/-! ## The worker loop -/

/-- A larger bound does not change the result of a loop that has ended. -/
theorem run_fuel_mono (joining : Bool) (now : TimePoint) : ∀ (n : Nat) (s s1 : Worker W),
    run joining now n s = some s1 → run joining now (n + 1) s = some s1
  | 0, s, s1, h => by simp [run] at h
  | n + 1, s, s1, h => by
    rw [run] at h
    rw [run]
    cases hr : runOne joining now [] s with
    | none => rw [hr] at h; simp at h
    | some r =>
      obtain ⟨b, s2⟩ := r
      rw [hr] at h
      cases b with
      | true => exact run_fuel_mono joining now n s2 s1 h
      | false => exact h

/-- The four ways a call of `runOne` can go, by the outcome of its `dequeue`. -/
theorem runOne_cases (joining : Bool) (now : TimePoint) (ws : List (Obs W)) (s : Worker W) :
    (dequeue ⟨s.tasks, joining, now⟩ ws = .blocked ∧ runOne joining now ws s = none) ∨
    (∃ tasks, dequeue ⟨s.tasks, joining, now⟩ ws = .null tasks ∧
      runOne joining now ws s = some (false, ⟨tasks, s.world, s.invoked⟩)) ∨
    (∃ task rest f, dequeue ⟨s.tasks, joining, now⟩ ws = .popped task rest ∧
      task.func = some f ∧
      runOne joining now ws s = some (true, ⟨rest, f s.world, s.invoked ++ [task]⟩)) ∨
    (∃ task rest, dequeue ⟨s.tasks, joining, now⟩ ws = .popped task rest ∧
      task.func = none ∧
      runOne joining now ws s = some (false, ⟨rest, s.world, s.invoked⟩)) := by
  cases hd : dequeue ⟨s.tasks, joining, now⟩ ws with
  | blocked => left; simp [runOne, hd]
  | null tasks => right; left; exact ⟨tasks, rfl, by simp [runOne, hd]⟩
  | popped task rest =>
    cases hf : task.func with
    | some f => right; right; left; exact ⟨task, rest, f, rfl, hf, by simp [runOne, hd, hf]⟩
    | none => right; right; right; exact ⟨task, rest, rfl, hf, by simp [runOne, hd, hf]⟩

/-- A loop that has ended within the bound `n` has invoked fewer than `n` tasks more. -/
theorem run_invoked_length (joining : Bool) (now : TimePoint) : ∀ (n : Nat) (s s1 : Worker W),
    run joining now n s = some s1 → s1.invoked.length < s.invoked.length + n
  | 0, s, s1, h => by simp [run] at h
  | n + 1, s, s1, h => by
    rw [run] at h
    rcases runOne_cases joining now [] s with ⟨_, hr⟩ | ⟨tasks, _, hr⟩ | ⟨task, rest, f, _, _, hr⟩ |
      ⟨task, rest, _, _, hr⟩
    · rw [hr] at h; simp at h
    · rw [hr] at h
      simp only [Option.some.injEq] at h
      rw [← h]; simp
    · rw [hr] at h
      have := run_invoked_length joining now n _ s1 h
      simp only [List.length_append, List.length_singleton] at this
      omega
    · rw [hr] at h
      simp only [Option.some.injEq] at h
      rw [← h]; simp

/-- Drain, for any record of earlier invocations: with the joining flag set, the clock at `t`
and every due task holding a callable, the loop ends after one call of `runOne` per due task
plus one. -/
theorem run_drain (t : TimePoint) : ∀ (k : Nat) (tasks : List (Task W)), tasks.length = k →
    (∀ x ∈ tasks, x.time ≤ t → x.func ≠ none) → ∀ (world : W) (invoked : List (Task W)),
    ∃ ran : List (Task W),
      run true t (ran.length + 1) ⟨tasks, world, invoked⟩
        = some ⟨tasks.filter (fun x => t < x.time),
            ran.foldl (fun w x => callTask x w) world, invoked ++ ran⟩ ∧
      ran.Perm (tasks.filter (fun x => x.time ≤ t)) ∧
      ran.Pairwise (fun a b => a.time ≤ b.time)
  | k, tasks, hk, hfun, world, invoked => by
    cases ht : top tasks with
    | none =>
      have hnil := (top_eq_none_iff tasks).1 ht
      subst hnil
      refine ⟨[], ?_, by simp, by simp⟩
      have hd := (dequeue_joining_not_due ([] : List (Task W)) t [] (by simp)).1
      simp [run, runOne, hd]
    | some x =>
      obtain ⟨l₁, l₂, hl, hp, hmin⟩ := top_pop_split tasks x ht
      by_cases hle : x.time ≤ t
      · have hd := (dequeue_due tasks true t [] x ht hle).1
        have hxmem : x ∈ tasks := top_mem tasks x ht
        obtain ⟨f, hf⟩ : ∃ f, x.func = some f := by
          cases hfx : x.func with
          | none => exact absurd hfx (hfun x hxmem hle)
          | some f => exact ⟨f, rfl⟩
        have hlen : (pop tasks).length < k := by
          rw [hp, ← hk, hl]; simp
        have hsub : ∀ y ∈ pop tasks, y ∈ tasks := by
          intro y hy
          rw [hp] at hy
          rw [hl]
          rcases List.mem_append.1 hy with h1 | h2
          · exact List.mem_append.2 (Or.inl h1)
          · exact List.mem_append.2 (Or.inr (List.mem_cons_of_mem _ h2))
        obtain ⟨ran, hrun, hperm, hsorted⟩ :=
          run_drain t (pop tasks).length (pop tasks) rfl
            (fun y hy hyt => hfun y (hsub y hy) hyt) (f world) (invoked ++ [x])
        refine ⟨x :: ran, ?_, ?_, ?_⟩
        · have hfilter : tasks.filter (fun y => t < y.time)
              = (pop tasks).filter (fun y => t < y.time) := by
            rw [hp, hl]
            simp [List.filter_cons, not_lt.2 hle]
          have hcall : callTask x world = f world := by simp [callTask, hf]
          rw [List.length_cons, run]
          simp only [runOne, hd, hf]
          rw [hrun, hfilter]
          simp [List.foldl_cons, hcall]
        · have h1 : tasks.filter (fun y => y.time ≤ t)
              = l₁.filter (fun y => y.time ≤ t) ++ x :: l₂.filter (fun y => y.time ≤ t) := by
            rw [hl]
            simp [List.filter_cons, hle]
          have h2 : (pop tasks).filter (fun y => y.time ≤ t)
              = l₁.filter (fun y => y.time ≤ t) ++ l₂.filter (fun y => y.time ≤ t) := by
            rw [hp]
            simp
          rw [h1]
          rw [h2] at hperm
          exact (List.Perm.cons x hperm).trans List.perm_middle.symm
        · refine List.Pairwise.cons ?_ hsorted
          intro y hy
          have hy1 : y ∈ (pop tasks).filter (fun y => y.time ≤ t) := hperm.subset hy
          exact hmin y (hsub y (List.mem_filter.1 hy1).1)
      · have hall : ∀ y ∈ tasks, t < y.time :=
          fun y hy => lt_of_lt_of_le (lt_of_not_ge hle) (hmin y hy)
        have hd := (dequeue_joining_not_due tasks t [] hall).1
        refine ⟨[], ?_, ?_, by simp⟩
        · have hfilter : tasks.filter (fun y => t < y.time) = tasks :=
            List.filter_eq_self.2 (fun y hy => by simpa using hall y hy)
          simp [run, runOne, hd, hfilter]
        · have hfilter : tasks.filter (fun y => y.time ≤ t) = [] :=
            List.filter_eq_nil_iff.2 (fun y hy => by simpa using hall y hy)
          rw [hfilter]
termination_by k => k
decreasing_by
  rw [← hk]
  rw [hp, hl]
  simp

/-- C9: drain. With the joining flag set, the clock held at `t` and the action of every due
task being a callable that acts on the world only, `run` ends after finitely many calls of
`runOne` (one per due task plus a last one, and a larger bound gives the same result); the
tasks invoked are exactly those with time `≤ t`, each once, in non-decreasing order of time,
the world is what invoking them in that order yields, and the queue left is exactly the tasks
with time `> t`, in place. -/
theorem C9_drain_runs_due_tasks_in_order (tasks : List (Task W)) (t : TimePoint) (world : W)
    (hfun : ∀ x ∈ tasks, x.time ≤ t → x.func ≠ none) :
    ∃ ran : List (Task W),
      run true t (ran.length + 1) ⟨tasks, world, []⟩
        = some ⟨tasks.filter (fun x => t < x.time),
            ran.foldl (fun w x => callTask x w) world, ran⟩ ∧
      run true t (ran.length + 2) ⟨tasks, world, []⟩
        = some ⟨tasks.filter (fun x => t < x.time),
            ran.foldl (fun w x => callTask x w) world, ran⟩ ∧
      run true t ran.length ⟨tasks, world, []⟩ = none ∧
      ran.Perm (tasks.filter (fun x => x.time ≤ t)) ∧
      ran.Pairwise (fun a b => a.time ≤ b.time) := by
  obtain ⟨ran, hrun, hperm, hsorted⟩ := run_drain t tasks.length tasks rfl hfun world []
  rw [List.nil_append] at hrun
  refine ⟨ran, hrun, run_fuel_mono true t _ _ _ hrun, ?_, hperm, hsorted⟩
  cases hn : run true t ran.length ⟨tasks, world, []⟩ with
  | none => rfl
  | some s1 =>
    exfalso
    have hlog := run_invoked_length true t ran.length ⟨tasks, world, []⟩ s1 hn
    have hnext := run_fuel_mono true t _ _ _ hn
    rw [hrun] at hnext
    simp only [Option.some.injEq] at hnext
    rw [← hnext] at hlog
    simp at hlog

/-- C9 on the queue of tasks due at 4, 2 and 9, each adding its own number to a counter, with
the clock held at 5. -/
theorem C9_drain_runs_due_tasks_in_order_witness :
    ∃ ran : List (Task Nat),
      run true 5 (ran.length + 1)
          ⟨[⟨4, some (· + 40)⟩, ⟨2, some (· + 20)⟩, ⟨9, some (· + 90)⟩], 0, []⟩
        = some ⟨([⟨4, some (· + 40)⟩, ⟨2, some (· + 20)⟩, ⟨9, some (· + 90)⟩]
              : List (Task Nat)).filter (fun x => 5 < x.time),
            ran.foldl (fun w x => callTask x w) 0, ran⟩ ∧
      run true 5 (ran.length + 2)
          ⟨[⟨4, some (· + 40)⟩, ⟨2, some (· + 20)⟩, ⟨9, some (· + 90)⟩], 0, []⟩
        = some ⟨([⟨4, some (· + 40)⟩, ⟨2, some (· + 20)⟩, ⟨9, some (· + 90)⟩]
              : List (Task Nat)).filter (fun x => 5 < x.time),
            ran.foldl (fun w x => callTask x w) 0, ran⟩ ∧
      run true 5 ran.length
          ⟨[⟨4, some (· + 40)⟩, ⟨2, some (· + 20)⟩, ⟨9, some (· + 90)⟩], 0, []⟩ = none ∧
      ran.Perm (([⟨4, some (· + 40)⟩, ⟨2, some (· + 20)⟩, ⟨9, some (· + 90)⟩]
        : List (Task Nat)).filter (fun x => x.time ≤ 5)) ∧
      ran.Pairwise (fun a b => a.time ≤ b.time) :=
  C9_drain_runs_due_tasks_in_order
    [⟨4, some (· + 40)⟩, ⟨2, some (· + 20)⟩, ⟨9, some (· + 90)⟩] 5 0 (by simp)

/-- C10 (with the empty callable set apart): if `runOne` returns false, then in the iteration
in which `dequeue` left its loop either `mJoining` was read as set and no queued task was due,
the queue being left as it was, or the task that `dequeue` removed held an empty callable; and
whenever `dequeue` has removed a task holding a non-empty callable, `runOne` invokes that
callable and returns true. -/
theorem C10_runOne_false_on_shutdown_or_empty_callable (joining : Bool) (now : TimePoint)
    (ws : List (Obs W)) (s : Worker W) :
    (∀ s1, runOne joining now ws s = some (false, s1) →
      ∃ o1, lastObs ⟨s.tasks, joining, now⟩ ws = some o1 ∧
        ((o1.joining = true ∧ (∀ x ∈ o1.tasks, o1.now < x.time) ∧
            s1 = ⟨o1.tasks, s.world, s.invoked⟩) ∨
          (∃ task, top o1.tasks = some task ∧ task.time ≤ o1.now ∧ task.func = none ∧
            s1 = ⟨pop o1.tasks, s.world, s.invoked⟩))) ∧
      (∀ task rest f, dequeue ⟨s.tasks, joining, now⟩ ws = .popped task rest →
        task.func = some f →
        runOne joining now ws s = some (true, ⟨rest, f s.world, s.invoked ++ [task]⟩)) := by
  constructor
  · intro s1 h
    rcases runOne_cases joining now ws s with ⟨_, hr⟩ | ⟨tasks, hd, hr⟩ |
      ⟨task, rest, f, _, _, hr⟩ | ⟨task, rest, hd, hf, hr⟩
    · rw [hr] at h; simp at h
    · rw [hr] at h
      simp only [Option.some.injEq, Prod.mk.injEq, true_and] at h
      obtain ⟨o1, hlast, hiter, htasks⟩ := dequeue_null_lastObs ws _ tasks hd
      obtain ⟨hj, hnone⟩ := dequeueIter_brk o1.tasks o1.joining o1.now hiter
      refine ⟨o1, hlast, Or.inl ⟨hj, hnone, ?_⟩⟩
      rw [← h, htasks]
    · rw [hr] at h; simp at h
    · rw [hr] at h
      simp only [Option.some.injEq, Prod.mk.injEq, true_and] at h
      obtain ⟨o1, hlast, hiter⟩ := dequeue_popped_lastObs ws _ task rest hd
      obtain ⟨htop, hrest, hle⟩ := dequeueIter_ret o1.tasks o1.joining o1.now task rest hiter
      refine ⟨o1, hlast, Or.inr ⟨task, htop, hle, hf, ?_⟩⟩
      rw [← h, hrest]
  · intro task rest f hd hf
    simp [runOne, hd, hf]

/-- C10 (with the empty callable set apart) on a worker that finds, with shutdown requested
and the clock at 0, a task due at 7: `runOne` returns false; and on a worker that finds a task
due at 0 holding a callable: `runOne` invokes it and returns true. -/
theorem C10_runOne_false_on_shutdown_or_empty_callable_witness :
    (runOne true 0 [] (⟨[⟨7, some Nat.succ⟩], 3, []⟩ : Worker Nat)
        = some (false, ⟨[⟨7, some Nat.succ⟩], 3, []⟩) ∧
      ∃ o1, lastObs (⟨[⟨7, some Nat.succ⟩], true, 0⟩ : Obs Nat) [] = some o1 ∧
        ((o1.joining = true ∧ (∀ x ∈ o1.tasks, o1.now < x.time) ∧
            (⟨[⟨7, some Nat.succ⟩], 3, []⟩ : Worker Nat) = ⟨o1.tasks, 3, []⟩) ∨
          (∃ task, top o1.tasks = some task ∧ task.time ≤ o1.now ∧ task.func = none ∧
            (⟨[⟨7, some Nat.succ⟩], 3, []⟩ : Worker Nat) = ⟨pop o1.tasks, 3, []⟩))) ∧
      (dequeue (⟨[⟨0, some Nat.succ⟩], false, 0⟩ : Obs Nat) [] = .popped ⟨0, some Nat.succ⟩ [] ∧
        runOne false 0 [] (⟨[⟨0, some Nat.succ⟩], 3, []⟩ : Worker Nat)
          = some (true, ⟨[], 4, [⟨0, some Nat.succ⟩]⟩)) :=
  ⟨⟨by simp [runOne, dequeue, dequeueIter, top],
    (C10_runOne_false_on_shutdown_or_empty_callable true 0 []
      (⟨[⟨7, some Nat.succ⟩], 3, []⟩ : Worker Nat)).1 _
      (by simp [runOne, dequeue, dequeueIter, top])⟩,
   ⟨by simp [dequeue, dequeueIter, top, pop],
    (C10_runOne_false_on_shutdown_or_empty_callable false 0 []
      (⟨[⟨0, some Nat.succ⟩], 3, []⟩ : Worker Nat)).2 ⟨0, some Nat.succ⟩ [] Nat.succ
      (by simp [dequeue, dequeueIter, top, pop]) rfl⟩⟩

/-- C10 as stated fails when a queued task holds an empty callable: with the joining flag
clear and the clock at 0, a task due at 0 is due; `dequeue` removes it, and `runOne` returns
false without having invoked anything. So a false result of `runOne` does not imply that the
joining flag is set and no task was due, and a removed task is not always invoked. -/
theorem C10_runOne_counterexample :
    dequeue (⟨[⟨0, none⟩], false, 0⟩ : Obs Nat) [] = .popped ⟨0, none⟩ [] ∧
      runOne false 0 [] (⟨[⟨0, none⟩], 3, []⟩ : Worker Nat) = some (false, ⟨[], 3, []⟩) ∧
      (¬ ∀ (joining : Bool) (now : TimePoint) (s s1 : Worker Nat),
        runOne joining now [] s = some (false, s1) →
          joining = true ∧ ∀ x ∈ s.tasks, now < x.time) ∧
      (¬ ∀ (joining : Bool) (now : TimePoint) (s : Worker Nat) (task : Task Nat)
          (rest : List (Task Nat)),
        dequeue ⟨s.tasks, joining, now⟩ [] = .popped task rest →
          ∃ s1, runOne joining now [] s = some (true, s1)) := by
  have hd : dequeue (⟨[⟨0, none⟩], false, 0⟩ : Obs Nat) [] = .popped ⟨0, none⟩ [] := by
    simp [dequeue, dequeueIter, top, pop]
  have hr : runOne false 0 [] (⟨[⟨0, none⟩], 3, []⟩ : Worker Nat)
      = some (false, ⟨[], 3, []⟩) := by
    simp [runOne, hd]
  refine ⟨hd, hr, ?_, ?_⟩
  · intro h
    exact Bool.false_ne_true (h false 0 _ _ hr).1
  · intro h
    obtain ⟨s1, hs1⟩ := h false 0 (⟨[⟨0, none⟩], 3, []⟩ : Worker Nat) ⟨0, none⟩ [] hd
    rw [hr] at hs1
    simp at hs1

end ThreadPool

end rtc
